import Mathlib

/-!
A verification development for the `commands` Go package: a small library
building command-line programs from a tree of named subcommands.

The embedding translates the package's source files:
  * `command.go` — the `Command` tree, `Execute` dispatch, `RegisterChild`
    registration and the `commandNameRegex` name-format rule;
  * `help.go` — `showHelp`, `helpForCommand`, `flagHelp`, `isZeroValue`.

Modelling conventions, stated once here:
  * The Go standard `flag` package is an external collaborator.  A flag set is
    embedded as a list of `FlagDef` records carrying the data the repository's
    code reads from `flag.Flag` (name, `DefValue`, the current value's text,
    the `String()` of a freshly-built zero of the value's dynamic type, the
    two results of `flag.UnquoteUsage`, whether the dynamic type is the
    package-local `stringValue`, and whether the value is a boolean flag).
    `Value.Set` success is abstracted into the `setOk` capability field.
  * `FlagSet.Parse` is embedded by `parseArgsGo`, a faithful translation of
    the `flag` package's `parseOne` loop, returning `Except` instead of
    exiting the process, which is how the repository consumes a parse result
    (`if err = fs.Parse(args[1:]); err != nil`).  Error message texts of the
    external package are abbreviated; no theorem depends on them.  On every
    parse failure the `flag` package invokes the installed usage callback,
    which the repository sets to `showHelp(cmd)`; the model records that write.
  * Streams (`io.Reader`/`io.Writer` handles) are abstract `Nat` handles.
    Side effects are recorded as an `Event` trace: a help text written to a
    handle, a handler invocation with the streams it received, and a dispatch
    step into a child keyed by an argument token.
  * Go's `map[string]*Command` is an association list; `RegisterChild` is the
    only writer and rejects duplicate keys, and `showHelp` sorts the keys
    before display.  The `cmd.parent` back-pointer is represented structurally:
    a child lives in its parent's list and `exec` threads the ancestor name
    path (used by `getNames`) and the parent's current streams down the walk.
  * Go `len` on strings counts bytes; the model uses `String.utf8ByteSize`
    where a width is computed from it, and character counts elsewhere (the
    two agree on ASCII, which is all the repository's own literals use).
-/

namespace Commands

/-- Exit code `ExitCodeSuccess` from `command.go`. -/
def ExitCodeSuccess : Int := 0

/-- Exit code `ExitCodeFailure` from `command.go`. -/
def ExitCodeFailure : Int := 1

/-- Exit code `ExitCodeSerious` from `command.go`. -/
def ExitCodeSerious : Int := 2

/-- The three stream handles of a node (`stdin`, `stdout`, `stderr`). -/
structure Streams where
  stdin : Nat
  stdout : Nat
  stderr : Nat
deriving DecidableEq

/-- One defined flag of a flag set, as seen by the repository's code.
`defValue` is `flag.Flag.DefValue` (the default value's text, fixed when the
flag is defined); `curValue` is the current `Value.String()` text, which
`FlagSet.Parse` may have changed since definition; `zeroString` is the
`String()` of a freshly-constructed zero value of the value's dynamic type
(what the reflection in `isZeroValue` builds); `unquotedName` and
`cleanUsage` are the two results of `flag.UnquoteUsage`;
`isLocalStringValue` says whether the dynamic type of `Value` is the
package-local `*stringValue` declared in `help.go`; `setOk` abstracts
whether `Value.Set` succeeds on a given text. -/
structure FlagDef where
  name : String
  isBool : Bool
  setOk : String → Bool
  defValue : String
  curValue : String
  zeroString : String
  unquotedName : String
  cleanUsage : String
  isLocalStringValue : Bool

/-- The value texts accepted by `strconv.ParseBool`, used by boolean flags. -/
def goParseBoolOk (s : String) : Bool :=
  (["1", "t", "T", "true", "TRUE", "True",
    "0", "f", "F", "false", "FALSE", "False"] : List String).contains s

/-- Go `%q` on a string: wrap in double quotes, escaping quotes and
backslashes (the repository only ever feeds it flag default texts). -/
def goQuote (s : String) : String :=
  "\"" ++ String.join (s.data.map (fun c =>
    if c = '"' then "\\\"" else if c = '\\' then "\\\\" else String.mk [c])) ++ "\""

/-- Scan a flag token's name part for `=`, returning the part before the
first `=` and, when present, the text after it. -/
def splitAtEq : List Char → List Char × Option String
  | [] => ([], none)
  | c :: t =>
    if c = '=' then ([], some (String.mk t))
    else
      match splitAtEq t with
      | (p, v) => (c :: p, v)

/-- `flag` package: split `name=value`; the scan for `=` starts at index 1
(index 0 was already checked not to be `=`). -/
def splitFlagValue : List Char → String × Option String
  | [] => ("", none)
  | c :: t =>
    match splitAtEq t with
    | (p, v) => (String.mk (c :: p), v)

/-- Find a defined flag by name (`FlagSet.formal` lookup). -/
def lookupFlag (flags : List FlagDef) (name : String) : Option FlagDef :=
  flags.find? (fun f => f.name = name)

/-- What one iteration of the `flag` package's `parseOne` decides to do with
the leading token `s` when the args after it are `rest`: stop parsing with
the given positional remainder, fail, or consume the token (`cont1`) or the
token plus the following value argument (`cont2`). -/
inductive ParseStep where
  | stop (args : List String)
  | err (e : String)
  | cont1
  | cont2
deriving DecidableEq

/-- One iteration of `parseOne`: stop at a token shorter than two characters
or not starting with `-` (it stays positional) and at a bare `--` (which is
consumed); otherwise strip one or two minuses, reject malformed names, split
a `name=value`, look the name up, and set the value — a boolean flag may take
its value from the token only, any other flag takes the following argument
when the token carries no `=value`. -/
def parseOneGo (flags : List FlagDef) (s : String) (rest : List String) : ParseStep :=
  if s.data.length < 2 ∨ s.data.head? ≠ some '-' then .stop (s :: rest)
  else if s.data.drop 1 = ['-'] then .stop rest
  else
    let nameChars := if (s.data.drop 1).head? = some '-' then s.data.drop 2 else s.data.drop 1
    if nameChars = [] ∨ nameChars.head? = some '-' ∨ nameChars.head? = some '=' then
      .err ("bad flag syntax: " ++ s)
    else
      match splitFlagValue nameChars with
      | (name, val) =>
        match lookupFlag flags name with
        | none =>
          if name = "help" ∨ name = "h" then .err "flag: help requested"
          else .err ("flag provided but not defined: -" ++ name)
        | some fl =>
          if fl.isBool then
            match val with
            | some v =>
              if fl.setOk v then .cont1
              else .err ("invalid boolean value " ++ goQuote v ++ " for -" ++ name)
            | none =>
              if fl.setOk "true" then .cont1
              else .err ("invalid boolean flag " ++ name)
          else
            match val with
            | some v =>
              if fl.setOk v then .cont1
              else .err ("invalid value " ++ goQuote v ++ " for flag -" ++ name)
            | none =>
              match rest with
              | v :: _ =>
                if fl.setOk v then .cont2
                else .err ("invalid value " ++ goQuote v ++ " for flag -" ++ name)
              | [] => .err ("flag needs an argument: -" ++ name)

/-- The `parseOne` loop, recursing on a fuel bound: each iteration consumes
at least one token, so fuel `args.length` (what `parseArgsGo` supplies)
never runs out and the fuel-exhausted arm is unreachable. -/
def parseLoop (flags : List FlagDef) : Nat → List String → Except String (List String)
  | _, [] => .ok []
  | 0, args => .ok args
  | fuel + 1, s :: rest =>
    match parseOneGo flags s rest with
    | .stop args => .ok args
    | .err e => .error e
    | .cont1 => parseLoop flags fuel rest
    | .cont2 => parseLoop flags fuel rest.tail

/-- The `flag` package's `Parse` over `args`, returning the positional
remainder (`FlagSet.Args()`) or the first error. -/
def parseArgsGo (flags : List FlagDef) (args : List String) :
    Except String (List String) :=
  parseLoop flags args.length args

/-- `strings.ReplaceAll(usage, "\n", "\n    \t")`: re-indent embedded
newlines of a flag's usage text. -/
def indentUsage (s : String) : String :=
  String.mk (List.flatten (s.data.map (fun c =>
    if c = '\n' then ("\n    \t").data else [c])))

/-- `isZeroValue` from `help.go`: build a zero value of the flag's dynamic
value type and compare its `String()` (the `zeroString` capability field)
with the given text. -/
def isZeroValue (fl : FlagDef) (value : String) : Bool :=
  value = fl.zeroString

/-- The flag's help line as built by `flagHelp` in `help.go` up to (and not
including) the default-value suffix: `  -name`, the unquoted usage name, the
tab separator chosen on the byte length so far, and the usage text with its
newlines re-indented. -/
def flagBaseLine (fl : FlagDef) : String :=
  let b := "  -" ++ fl.name
  let b := if fl.unquotedName.length > 0 then b ++ " " ++ fl.unquotedName else b
  let b := if b.utf8ByteSize ≤ 4 then b ++ "\t" else b ++ "    \t"
  b ++ indentUsage fl.cleanUsage

/-- One flag's full help line from `flagHelp`: the base line, then
` (default <v>)` when the declared default is not the type's zero value —
quoted via `%q` when the value is the package-local `stringValue` — and a
newline. -/
def flagHelpLine (fl : FlagDef) : String :=
  let b := flagBaseLine fl
  let b :=
    if ¬ isZeroValue fl fl.defValue then
      if fl.isLocalStringValue then b ++ " (default " ++ goQuote fl.defValue ++ ")"
      else b ++ " (default " ++ fl.defValue ++ ")"
    else b
  b ++ "\n"

/-- Lexicographic comparison of character lists (Go compares strings by
bytes; on valid UTF-8 the byte order and the code-point order coincide). -/
def lexLe : List Char → List Char → Bool
  | [], _ => true
  | _ :: _, [] => false
  | a :: as, b :: bs =>
    if a = b then lexLe as bs else decide (a < b)

/-- `a ≤ b` on strings, bytewise, as Go's `sort.Strings` orders them. -/
def strLe (a b : String) : Bool :=
  lexLe a.data b.data

/-- `strLe` as a relation, so sorting lemmas can speak about it. -/
def strLeP (a b : String) : Prop := strLe a b = true

instance : DecidableRel strLeP :=
  fun a b => inferInstanceAs (Decidable (strLe a b = true))

/-- The order `flagHelp` visits flags in: lexicographic on names. -/
def flagLeP (a b : FlagDef) : Prop := strLe a.name b.name = true

instance : DecidableRel flagLeP :=
  fun a b => inferInstanceAs (Decidable (strLe a.name b.name = true))

/-- `flagHelp` from `help.go`: nothing for an absent flag set, otherwise one
line per defined flag; `VisitAll` visits flags in lexicographical name
order. -/
def flagHelp : Option (List FlagDef) → String
  | none => ""
  | some defs =>
    String.join ((defs.insertionSort flagLeP).map flagHelpLine)

/-- A node of the command tree (`Command` in `command.go`).  `children` is
the `map[string]*Command` as an association list; `longestName` is the
incrementally-maintained longest child name length; the final three fields
are the stream handles.  The handler receives the streams it is run with and
the parsed flag set's positional arguments, and returns its exit code and
error. -/
inductive Command : Type where
  | mk
    (name : String)
    (usage : String)
    (short : String)
    (long : String)
    (flags : Option (List FlagDef))
    (func : Option (Streams → List String → Int × Option String))
    (children : List (String × Command))
    (longestName : Nat)
    (stdin : Nat)
    (stdout : Nat)
    (stderr : Nat)

def Command.name : Command → String
  | .mk v _ _ _ _ _ _ _ _ _ _ => v

def Command.usage : Command → String
  | .mk _ v _ _ _ _ _ _ _ _ _ => v

def Command.short : Command → String
  | .mk _ _ v _ _ _ _ _ _ _ _ => v

def Command.long : Command → String
  | .mk _ _ _ v _ _ _ _ _ _ _ => v

def Command.flags : Command → Option (List FlagDef)
  | .mk _ _ _ _ v _ _ _ _ _ _ => v

def Command.func : Command → Option (Streams → List String → Int × Option String)
  | .mk _ _ _ _ _ v _ _ _ _ _ => v

def Command.children : Command → List (String × Command)
  | .mk _ _ _ _ _ _ v _ _ _ _ => v

def Command.longestName : Command → Nat
  | .mk _ _ _ _ _ _ _ v _ _ _ => v

def Command.stdin : Command → Nat
  | .mk _ _ _ _ _ _ _ _ v _ _ => v

def Command.stdout : Command → Nat
  | .mk _ _ _ _ _ _ _ _ _ v _ => v

def Command.stderr : Command → Nat
  | .mk _ _ _ _ _ _ _ _ _ _ v => v

/-- The node's three stream handles as one record. -/
def Command.streams (c : Command) : Streams :=
  ⟨c.stdin, c.stdout, c.stderr⟩

/-- The node's flag definitions; an absent `Flags` field behaves as the empty
flag set `Execute` synthesizes with `flag.NewFlagSet`. -/
def Command.flagDefs (c : Command) : List FlagDef :=
  c.flags.getD []

/-- Replace the children list, all other fields unchanged. -/
def Command.withChildren : Command → List (String × Command) → Command
  | .mk n u s l f fn _ ln i o e, ch => .mk n u s l f fn ch ln i o e

/-- Replace only the three stream fields. -/
def Command.setStreams : Command → Nat → Nat → Nat → Command
  | .mk n u s l f fn ch ln _ _ _, i, o, e => .mk n u s l f fn ch ln i o e

/-- Go map read `cmd.children[k]`: first association with key `k`
(`RegisterChild` keeps keys unique). -/
def lookupChild (cmd : Command) (k : String) : Option Command :=
  (cmd.children.find? (fun p => p.1 = k)).map Prod.snd

/-- `strings.TrimSuffix(s, ".")`: strip one trailing period. -/
def stripDot (s : String) : String :=
  if s.data.getLast? = some '.' then String.mk s.data.dropLast else s

/-- The whitespace characters `strings.TrimSpace` strips (the ASCII ones;
the repository's own text never carries the exotic Unicode spaces). -/
def goWhitespace (c : Char) : Bool :=
  c = ' ' ∨ c = '\t' ∨ c = '\n' ∨ c = '\r' ∨ c = '\x0b' ∨ c = '\x0c'

/-- `strings.TrimSpace`: strip whitespace from both ends. -/
def trimSpace (s : String) : String :=
  String.mk
    (((s.data.dropWhile goWhitespace).reverse.dropWhile goWhitespace).reverse)

/-- `strings.Join(l, " ")`. -/
def joinSpace : List String → String
  | [] => ""
  | [x] => x
  | x :: xs => x ++ " " ++ joinSpace xs

/-- `fmt.Sprintf("%-*s", n, s)`: left-justify `s` in a field of `n` runes. -/
def padRight (s : String) (n : Nat) : String :=
  s ++ String.mk (List.replicate (n - s.length) ' ')

/-- One row of the `Commands:` block of `showHelp`: two spaces, the child's
name padded to the parent's `longestName` column, a space, and the child's
`Short` with a trailing period stripped. -/
def childRow (child : Command) (width : Nat) : String :=
  "  " ++ padRight child.name width ++ " " ++ stripDot child.short ++ "\n"

/-- The `Commands:` rows of `showHelp`, one per key in the given order; a key
missing from the map contributes nothing (unreachable for registered trees). -/
def commandRows (cmd : Command) (keys : List String) : String :=
  String.join (keys.map (fun k =>
    match lookupChild cmd k with
    | some child => childRow child cmd.longestName
    | none => ""))

/-- `sort.Strings`: lexicographic sort. -/
def sortStrings (l : List String) : List String :=
  l.insertionSort strLeP

/-- The text `showHelp` renders for `cmd` whose ancestor path (the names
`getNames` collects from the parent chain, excluding `cmd` itself) is
`ancestors`. -/
def showHelpText (ancestors : List String) (cmd : Command) : String :=
  let names := joinSpace (ancestors ++ [cmd.name])
  let result := cmd.short ++ "\n\nUsage:\n  " ++ names
  let result := if cmd.usage ≠ "" then result ++ " " ++ cmd.usage else result
  let keys := cmd.children.map Prod.fst
  let result := if keys.length > 0 then result ++ " <command>" else result
  let result := result ++ "\n"
  let fh := flagHelp cmd.flags
  let result := if fh ≠ "" then result ++ "\nFlags:\n" ++ fh else result
  let result :=
    if keys.length > 0 then
      result ++ "\nCommands:\n" ++ commandRows cmd (sortStrings keys) ++
        "\nUse '" ++ names ++ " help <command>' for more information about a command.\n"
    else result
  let helpText := trimSpace cmd.long
  if helpText ≠ "" then result ++ "\n" ++ helpText ++ "\n" else result

/-- Observable actions of an execution: a help text written to a stream
handle, a handler run on a node with the streams it received, and a dispatch
step into the child registered under `key`. -/
inductive Event : Type where
  | wrote (handle : Nat) (text : String)
  | ran (node : String) (s : Streams)
  | dispatched (key : String)
deriving DecidableEq

/-- The outcome of `Execute`: a Go panic, or a returned `(exit code, error)`
pair together with the trace of events. -/
inductive ExecOut : Type where
  | panicked (msg : String)
  | ret (code : Int) (err : Option String) (events : List Event)
deriving DecidableEq

/-- Prefix events onto a returned outcome (a panic has no trace). -/
def ExecOut.withPre (pre : List Event) : ExecOut → ExecOut
  | .panicked m => .panicked m
  | .ret c e evs => .ret c e (pre ++ evs)

/-- `helpForCommand(cmd, fl)` from `help.go`.  `eff` is the executing node's
(already inherited) streams — `showHelp(cmd)` writes to them — while help for
a selected child is written to that child's own `stdout` field, which
executing the parent did not touch.  `fargs` is `fl.Args()`, the positional
remainder of the parse. -/
def helpForCommandR (ancestors : List String) (cmd : Command) (eff : Streams)
    (fargs : List String) : ExecOut :=
  let args := if fargs.head? = some "help" then fargs.tail else fargs
  if args.length > 2 then
    .ret ExitCodeSerious (some "can only give help with one command")
      [.wrote eff.stdout (showHelpText ancestors cmd)]
  else
    match args with
    | [] =>
      .ret ExitCodeSuccess none [.wrote eff.stdout (showHelpText ancestors cmd)]
    | a :: _ =>
      match lookupChild cmd a with
      | none =>
        .ret ExitCodeSerious (some ("unknown command: " ++ a))
          [.wrote eff.stdout (showHelpText ancestors cmd)]
      | some sub =>
        .ret ExitCodeSuccess none
          [.wrote sub.stdout (showHelpText (ancestors ++ [cmd.name]) sub)]

/-- `Execute(cmd, args)` from `command.go`.  `ancestors` is the name path of
the parent chain; `inh` is `none` for a parentless call (the node keeps its
own streams) and `some s` when called on a node whose parent's current
streams are `s` — the code copies them onto the node before doing anything
else.  Mirrors the source order: panic checks, stream inheritance, flag
parsing (a failure renders the node's usage and returns `serious`), the
`len(args) == 1` handler-or-help case, the literal `help` token, child
dispatch on `args[1]`, and the handler-or-help fallback for an unrecognized
token. -/
def exec (ancestors : List String) (inh : Option Streams) (cmd : Command) :
    List String → ExecOut
  | [] => .panicked ("invalid execute \"" ++ cmd.name ++ "\"")
  | _a0 :: rest =>
    if cmd.children.isEmpty ∧ cmd.func.isNone then
      .panicked ("invalid command \"" ++ cmd.name ++ "\"")
    else
      let eff := inh.getD cmd.streams
      match parseArgsGo cmd.flagDefs rest with
      | .error e =>
        .ret ExitCodeSerious (some e) [.wrote eff.stdout (showHelpText ancestors cmd)]
      | .ok pos =>
        match rest with
        | [] =>
          match cmd.func with
          | some f =>
            match f eff pos with
            | (c, e) => .ret c e [.ran cmd.name eff]
          | none => helpForCommandR ancestors cmd eff pos
        | a1 :: _ =>
          if a1 = "help" then helpForCommandR ancestors cmd eff pos
          else
            match lookupChild cmd a1 with
            | some sub =>
              (exec (ancestors ++ [cmd.name]) (some eff) sub rest).withPre
                [.dispatched a1]
            | none =>
              match cmd.func with
              | some f =>
                match f eff pos with
                | (c, e) => .ret c e [.ran cmd.name eff]
              | none => helpForCommandR ancestors cmd eff pos

/-- The characters Go's character class `[a-z0-9]` denotes. -/
def lowerAlnumChars : List Char := "abcdefghijklmnopqrstuvwxyz0123456789".data

/-- A character class as a regular expression: one of the listed characters. -/
def oneOfChars : List Char → RegularExpression Char
  | [] => 0
  | c :: cs => RegularExpression.char c + oneOfChars cs

/-- `[a-z0-9]`. -/
def alnumRE : RegularExpression Char := oneOfChars lowerAlnumChars

/-- `e+` is `e e*`. -/
def plusRE (r : RegularExpression Char) : RegularExpression Char := r * r.star

/-- `e?` is `ε | e`. -/
def optRE (r : RegularExpression Char) : RegularExpression Char := 1 + r

/-- The group `[a-z0-9]+-?[a-z0-9]*` of `commandNameRegex`. -/
def groupRE : RegularExpression Char :=
  plusRE alnumRE * optRE (RegularExpression.char '-') * alnumRE.star

/-- `commandNameRegex` from `command.go`:
`^[a-z0-9]$|^([a-z0-9]+-?[a-z0-9]*)+[a-z0-9]$` — both alternatives are fully
anchored, so `MatchString` is exact-match of this alternation. -/
def commandNameRegex : RegularExpression Char :=
  alnumRE + plusRE groupRE * alnumRE

/-- The name-format check `commandNameRegex.MatchString(name)`. -/
def nameRegexAccepts (s : String) : Bool :=
  commandNameRegex.rmatch s.data

/-- A lowercase alphanumeric character, the class `[a-z0-9]` denotes. -/
def isNameChar (c : Char) : Bool := decide (c ∈ lowerAlnumChars)

/-- Prepend a character to the first group of a split. -/
def consHead (c : Char) : List (List Char) → List (List Char)
  | [] => [[c]]
  | g :: r => (c :: g) :: r

/-- Split a character list at every hyphen (the groups a hyphen-delimited
name consists of; empty groups witness leading, trailing or adjacent
hyphens). -/
def splitHyphen : List Char → List (List Char)
  | [] => [[]]
  | c :: t =>
    if c = '-' then [] :: splitHyphen t else consHead c (splitHyphen t)

/-- The claim's name-format language over characters: every hyphen-delimited
group is nonempty and all-lowercase-alphanumeric.  A single such character
is the one-group case; a leading, trailing or doubled hyphen makes an empty
group; any other character fails the group check. -/
def specOkGroups (l : List Char) : Bool :=
  (splitHyphen l).all (fun g => !g.isEmpty && g.all isNameChar)

/-- The claim's name-format language, on strings. -/
def specNameOk (s : String) : Bool := specOkGroups s.data

/-- A hyphen-delimited run of nonempty all-alphanumeric groups: the
structural view of the name language, bridging the regex and `specNameOk`. -/
inductive GoodName : List Char → Prop where
  | single (g : List Char) (hne : g ≠ [])
      (hall : ∀ c ∈ g, isNameChar c = true) : GoodName g
  | group (g rest : List Char) (hne : g ≠ [])
      (hall : ∀ c ∈ g, isNameChar c = true) (hr : GoodName rest) :
      GoodName (g ++ '-' :: rest)

/-- `RegisterChild(c, cmd)` from `command.go`: `none` is the Go panic;
otherwise the parent is returned with the child appended under its name and
`longestName` bumped.  The `cmd.parent = c` mutation is represented by the
child living in the returned parent (the `exec` walk re-derives the parent
chain). -/
def registerChild (c cmd : Command) : Option Command :=
  if cmd.name = "" then none
  else if cmd.short = "" then none
  else if (lookupChild c cmd.name).isSome then none
  else if ¬ nameRegexAccepts cmd.name then none
  else some (match c with
    | .mk n u s l f fn ch ln i o e =>
      .mk n u s l f fn (ch ++ [(cmd.name, cmd)])
        (if cmd.name.utf8ByteSize > ln then cmd.name.utf8ByteSize else ln) i o e)

/-! ## Concrete command trees and flags used by the claim theorems,
their witnesses and counterexamples -/

def c4cmd : Command :=
  .mk "prog" "" "Root" "" none (some fun _ _ => (0, none)) [] 0 5 6 7

def c1child : Command :=
  .mk "a" "" "A child" "" none (some fun _ _ => (0, none)) [] 0 0 0 0

def c1root : Command :=
  .mk "prog" "" "The root" "" none none [("a", c1child)] 1 1 2 3

def c3flag : FlagDef :=
  { name := "v", isBool := true, setOk := goParseBoolOk, defValue := "false",
    curValue := "false", zeroString := "false", unquotedName := "",
    cleanUsage := "verbose", isLocalStringValue := false }

def c3sub : Command :=
  .mk "sub" "" "Sub" "" none (some fun _ _ => (7, none)) [] 0 0 0 0

def c3root : Command :=
  .mk "prog" "" "Root" "" (some [c3flag]) none [("sub", c3sub)] 3 1 2 3

def w3sub : Command :=
  .mk "x" "" "X" "" none (some fun _ _ => (0, none)) [] 0 0 0 0

def w3root : Command :=
  .mk "prog" "" "Root" "" none none [("x", w3sub)] 1 1 2 3

def c2flag : FlagDef :=
  { name := "n", isBool := false, setOk := fun _ => true, defValue := "0",
    curValue := "5", zeroString := "0", unquotedName := "int",
    cleanUsage := "how many", isLocalStringValue := false }

def c2wflag : FlagDef :=
  { name := "n", isBool := false, setOk := fun _ => true, defValue := "x",
    curValue := "x", zeroString := "", unquotedName := "", cleanUsage := "use",
    isLocalStringValue := true }

def c10a : Command :=
  .mk "a" "" "Alpha" "" none (some fun _ _ => (0, none)) [] 0 0 0 0

def c10b : Command :=
  .mk "b" "" "Beta" "" none (some fun _ _ => (0, none)) [] 0 0 0 0

def c10cmd : Command :=
  .mk "prog" "" "Root" "" none none [("a", c10a), ("b", c10b)] 1 1 2 3

/-- The text introducing a rendered default value. -/
def defaultMarker : List Char := " (default ".data

/-! ## Unfolding lemmas for `exec` and its helpers -/

theorem parseOneGo_stop (flags : List FlagDef) (s : String) (rest : List String)
    (h : s.data.length < 2 ∨ s.data.head? ≠ some '-') :
    parseOneGo flags s rest = .stop (s :: rest) := by
  unfold parseOneGo
  rw [if_pos h]

theorem parseLoop_cons (flags : List FlagDef) (fuel : Nat) (s : String)
    (rest : List String) :
    parseLoop flags (fuel + 1) (s :: rest) =
      (match parseOneGo flags s rest with
       | .stop args => .ok args
       | .err e => .error e
       | .cont1 => parseLoop flags fuel rest
       | .cont2 => parseLoop flags fuel rest.tail) := rfl

theorem parseArgsGo_stop (flags : List FlagDef) (s : String) (rest : List String)
    (h : s.data.length < 2 ∨ s.data.head? ≠ some '-') :
    parseArgsGo flags (s :: rest) = .ok (s :: rest) := by
  show parseLoop flags (s :: rest).length (s :: rest) = .ok (s :: rest)
  rw [List.length_cons, parseLoop_cons, parseOneGo_stop flags s rest h]

theorem exec_nil_eq (anc : List String) (inh : Option Streams) (cmd : Command) :
    exec anc inh cmd [] = .panicked ("invalid execute \"" ++ cmd.name ++ "\"") := rfl

theorem exec_invalid_eq (anc : List String) (inh : Option Streams) (cmd : Command)
    (a0 : String) (rest : List String)
    (h : cmd.children.isEmpty ∧ cmd.func.isNone) :
    exec anc inh cmd (a0 :: rest) =
      .panicked ("invalid command \"" ++ cmd.name ++ "\"") := by
  rw [exec, if_pos h]

theorem exec_parse_error_eq (anc : List String) (inh : Option Streams) (cmd : Command)
    (a0 : String) (rest : List String) (e : String)
    (hvalid : ¬(cmd.children.isEmpty ∧ cmd.func.isNone))
    (hp : parseArgsGo cmd.flagDefs rest = .error e) :
    exec anc inh cmd (a0 :: rest) =
      .ret ExitCodeSerious (some e)
        [.wrote (inh.getD cmd.streams).stdout (showHelpText anc cmd)] := by
  rw [exec, if_neg hvalid, hp]

theorem exec_one_eq (anc : List String) (inh : Option Streams) (cmd : Command)
    (a0 : String) (hvalid : ¬(cmd.children.isEmpty ∧ cmd.func.isNone)) :
    exec anc inh cmd [a0] =
      (match cmd.func with
       | some f =>
         match f (inh.getD cmd.streams) [] with
         | (c, e) => .ret c e [.ran cmd.name (inh.getD cmd.streams)]
       | none => helpForCommandR anc cmd (inh.getD cmd.streams) []) := by
  rw [exec, if_neg hvalid]
  rfl

theorem exec_step_eq (anc : List String) (inh : Option Streams) (cmd : Command)
    (a0 a1 : String) (rest2 pos : List String)
    (hvalid : ¬(cmd.children.isEmpty ∧ cmd.func.isNone))
    (hp : parseArgsGo cmd.flagDefs (a1 :: rest2) = .ok pos) :
    exec anc inh cmd (a0 :: a1 :: rest2) =
      (if a1 = "help" then helpForCommandR anc cmd (inh.getD cmd.streams) pos
       else
         match lookupChild cmd a1 with
         | some sub =>
           (exec (anc ++ [cmd.name]) (some (inh.getD cmd.streams)) sub
             (a1 :: rest2)).withPre [.dispatched a1]
         | none =>
           match cmd.func with
           | some f =>
             match f (inh.getD cmd.streams) pos with
             | (c, e) => .ret c e [.ran cmd.name (inh.getD cmd.streams)]
           | none => helpForCommandR anc cmd (inh.getD cmd.streams) pos) := by
  rw [exec, if_neg hvalid, hp]

theorem withPre_ret (pre : List Event) (c : Int) (e : Option String)
    (evs : List Event) :
    (ExecOut.ret c e evs).withPre pre = .ret c e (pre ++ evs) := rfl

theorem withPre_panicked (pre : List Event) (m : String) :
    (ExecOut.panicked m).withPre pre = .panicked m := rfl

theorem exec_one_func_eq (anc : List String) (inh : Option Streams) (cmd : Command)
    (a0 : String) (f : Streams → List String → Int × Option String)
    (hvalid : ¬(cmd.children.isEmpty ∧ cmd.func.isNone)) (hf : cmd.func = some f) :
    exec anc inh cmd [a0] =
      .ret (f (inh.getD cmd.streams) []).1 (f (inh.getD cmd.streams) []).2
        [.ran cmd.name (inh.getD cmd.streams)] := by
  rw [exec_one_eq anc inh cmd a0 hvalid, hf]

theorem exec_one_help_eq (anc : List String) (inh : Option Streams) (cmd : Command)
    (a0 : String)
    (hvalid : ¬(cmd.children.isEmpty ∧ cmd.func.isNone)) (hf : cmd.func = none) :
    exec anc inh cmd [a0] = helpForCommandR anc cmd (inh.getD cmd.streams) [] := by
  rw [exec_one_eq anc inh cmd a0 hvalid, hf]

theorem exec_help_tok_eq (anc : List String) (inh : Option Streams) (cmd : Command)
    (a0 : String) (rest2 pos : List String)
    (hvalid : ¬(cmd.children.isEmpty ∧ cmd.func.isNone))
    (hp : parseArgsGo cmd.flagDefs ("help" :: rest2) = .ok pos) :
    exec anc inh cmd (a0 :: "help" :: rest2) =
      helpForCommandR anc cmd (inh.getD cmd.streams) pos := by
  rw [exec_step_eq anc inh cmd a0 "help" rest2 pos hvalid hp, if_pos rfl]

theorem exec_dispatch_eq (anc : List String) (inh : Option Streams) (cmd : Command)
    (a0 a1 : String) (rest2 pos : List String) (sub : Command)
    (hvalid : ¬(cmd.children.isEmpty ∧ cmd.func.isNone))
    (hp : parseArgsGo cmd.flagDefs (a1 :: rest2) = .ok pos)
    (hhelp : a1 ≠ "help") (hc : lookupChild cmd a1 = some sub) :
    exec anc inh cmd (a0 :: a1 :: rest2) =
      (exec (anc ++ [cmd.name]) (some (inh.getD cmd.streams)) sub
        (a1 :: rest2)).withPre [.dispatched a1] := by
  rw [exec_step_eq anc inh cmd a0 a1 rest2 pos hvalid hp, if_neg hhelp, hc]

theorem exec_fallback_func_eq (anc : List String) (inh : Option Streams)
    (cmd : Command) (a0 a1 : String) (rest2 pos : List String)
    (f : Streams → List String → Int × Option String)
    (hvalid : ¬(cmd.children.isEmpty ∧ cmd.func.isNone))
    (hp : parseArgsGo cmd.flagDefs (a1 :: rest2) = .ok pos)
    (hhelp : a1 ≠ "help") (hc : lookupChild cmd a1 = none)
    (hf : cmd.func = some f) :
    exec anc inh cmd (a0 :: a1 :: rest2) =
      .ret (f (inh.getD cmd.streams) pos).1 (f (inh.getD cmd.streams) pos).2
        [.ran cmd.name (inh.getD cmd.streams)] := by
  rw [exec_step_eq anc inh cmd a0 a1 rest2 pos hvalid hp, if_neg hhelp, hc, hf]

theorem exec_fallback_help_eq (anc : List String) (inh : Option Streams)
    (cmd : Command) (a0 a1 : String) (rest2 pos : List String)
    (hvalid : ¬(cmd.children.isEmpty ∧ cmd.func.isNone))
    (hp : parseArgsGo cmd.flagDefs (a1 :: rest2) = .ok pos)
    (hhelp : a1 ≠ "help") (hc : lookupChild cmd a1 = none)
    (hf : cmd.func = none) :
    exec anc inh cmd (a0 :: a1 :: rest2) =
      helpForCommandR anc cmd (inh.getD cmd.streams) pos := by
  rw [exec_step_eq anc inh cmd a0 a1 rest2 pos hvalid hp, if_neg hhelp, hc, hf]

theorem helpForCommandR_cases (anc : List String) (cmd : Command) (eff : Streams)
    (fargs : List String) :
    ∃ code err h txt,
      helpForCommandR anc cmd eff fargs = .ret code err [.wrote h txt] ∧
        (code = ExitCodeSuccess ∨ code = ExitCodeSerious) := by
  simp only [helpForCommandR]
  repeat' split
  all_goals exact ⟨_, _, _, _, rfl, by decide⟩

/-! ## C4 -/

/-- C4: whenever parsing the node's flag set over `args[1:]` fails,
`Execute` returns the serious exit code paired with the underlying parse
error (after the parse renders the node's usage).  The node's flag set is
`flagDefs`, which is the node-supplied set or the empty set synthesized when
the node defines none, so the statement covers both. -/
theorem parse_failure_serious (anc : List String) (inh : Option Streams)
    (cmd : Command) (a0 : String) (rest : List String) (e : String)
    (hvalid : ¬(cmd.children.isEmpty ∧ cmd.func.isNone))
    (hp : parseArgsGo cmd.flagDefs rest = .error e) :
    exec anc inh cmd (a0 :: rest) =
      .ret ExitCodeSerious (some e)
        [.wrote (inh.getD cmd.streams).stdout (showHelpText anc cmd)] :=
  exec_parse_error_eq anc inh cmd a0 rest e hvalid hp

theorem parse_failure_serious_witness :
    exec [] none c4cmd ["prog", "-x"] =
      .ret ExitCodeSerious (some "flag provided but not defined: -x")
        [.wrote 6 (showHelpText [] c4cmd)] :=
  parse_failure_serious [] none c4cmd "prog" ["-x"]
    "flag provided but not defined: -x" (by decide) rfl

/-! ## C1 -/

/-- C1 (code-bug evidence): with exactly two positional arguments after
`help` the code does NOT return the serious `can only give help with one
command` error: `Execute(root, [prog, help, a, b])` with `a` a registered
child renders `a`'s help and returns success, and with no such child it
returns `unknown command`; only three or more arguments after `help` produce
the claimed error, because `helpForCommand` first drops the `help` token and
then still compares against 2. -/
theorem helpTwoArgs_success_not_serious :
    exec [] none c1root ["prog", "help", "a", "b"] =
      .ret ExitCodeSuccess none [.wrote 0 (showHelpText ["prog"] c1child)] ∧
    exec [] none c1root ["prog", "help", "x", "y"] =
      .ret ExitCodeSerious (some "unknown command: x")
        [.wrote 2 (showHelpText [] c1root)] ∧
    exec [] none c1root ["prog", "help", "a", "b", "c"] =
      .ret ExitCodeSerious (some "can only give help with one command")
        [.wrote 2 (showHelpText [] c1root)] :=
  ⟨by decide, by decide, by decide⟩

/-! ## C3 -/

/-- C3 counterexample: parsing `[-v, sub]` consumes the flag, so the first
remaining (post-parse) token is `sub`, which names a registered child; yet
`Execute` does not recurse into that child — it renders help and returns
success (no dispatch, no handler run), while executing the child on the
remaining arguments would have returned the handler's code 7.  The dispatch
test reads `args[1]` (`-v` here), not the first post-parse token. -/
theorem dispatch_postparse_counterexample :
    parseArgsGo c3root.flagDefs ["-v", "sub"] = .ok ["sub"] ∧
    (lookupChild c3root "sub").isSome = true ∧
    exec [] none c3root ["prog", "-v", "sub"] =
      .ret ExitCodeSuccess none [.wrote 0 (showHelpText ["prog"] c3sub)] ∧
    exec ["prog"] (some c3root.streams) c3sub ["sub"] =
      .ret 7 none [.ran "sub" c3root.streams] :=
  ⟨rfl, by decide, by decide, by decide⟩

/-- C3 (amended): at each dispatch step, after parsing the node's own flags,
`Execute` inspects `args[1]` — the first token of the original vector after
the invocation name, which equals the first post-parse token exactly when
parsing consumed no flag tokens: the literal `help` there delegates to the
help command-resolution path, and otherwise a token naming a registered
child makes `Execute` recurse into that child with `args[1:]`, the child
re-parsing flags from its own flag set. -/
theorem dispatch_step_amended (anc : List String) (inh : Option Streams)
    (cmd : Command) (a0 a1 : String) (rest2 pos : List String)
    (hvalid : ¬(cmd.children.isEmpty ∧ cmd.func.isNone))
    (hp : parseArgsGo cmd.flagDefs (a1 :: rest2) = .ok pos) :
    (a1 = "help" →
      exec anc inh cmd (a0 :: a1 :: rest2) =
        helpForCommandR anc cmd (inh.getD cmd.streams) pos) ∧
    (∀ sub, a1 ≠ "help" → lookupChild cmd a1 = some sub →
      exec anc inh cmd (a0 :: a1 :: rest2) =
        (exec (anc ++ [cmd.name]) (some (inh.getD cmd.streams)) sub
          (a1 :: rest2)).withPre [.dispatched a1]) := by
  constructor
  · intro hh
    rw [exec_step_eq anc inh cmd a0 a1 rest2 pos hvalid hp, if_pos hh]
  · intro sub hna hc
    rw [exec_step_eq anc inh cmd a0 a1 rest2 pos hvalid hp, if_neg hna, hc]

theorem dispatch_step_amended_witness :
    exec [] none w3root ["prog", "x"] =
      (exec ["prog"] (some (Option.getD none w3root.streams)) w3sub ["x"]).withPre
        [.dispatched "x"] :=
  (dispatch_step_amended [] none w3root "prog" "x" [] ["x"]
    (by decide) rfl).2 w3sub (by decide) rfl

/-! ## The executable trace: dispatched keys, exit codes, handler streams -/

theorem exec_trace_spec (args : List String) :
    ∀ anc inh cmd code err evs, exec anc inh cmd args = .ret code err evs →
      (∀ k, Event.dispatched k ∈ evs → k ≠ "help") ∧
      ((∀ n s, Event.ran n s ∉ evs) →
        code = ExitCodeSuccess ∨ code = ExitCodeSerious) ∧
      (∀ n s, Event.ran n s ∈ evs → s = inh.getD cmd.streams) := by
  induction args with
  | nil =>
    intro anc inh cmd code err evs h
    rw [exec_nil_eq] at h
    exact absurd h (by simp)
  | cons a0 rest ih =>
    intro anc inh cmd code err evs h
    by_cases hvalid : cmd.children.isEmpty ∧ cmd.func.isNone
    · rw [exec_invalid_eq anc inh cmd a0 rest hvalid] at h
      exact absurd h (by simp)
    · cases hp : parseArgsGo cmd.flagDefs rest with
      | error e =>
        rw [exec_parse_error_eq anc inh cmd a0 rest e hvalid hp] at h
        injection h with h1 h2 h3
        subst h1; subst h2; subst h3
        refine ⟨fun k hk => absurd hk (by simp), fun _ => Or.inr rfl,
          fun n s hm => absurd hm (by simp)⟩
      | ok pos =>
        cases rest with
        | nil =>
          cases hf : cmd.func with
          | some f =>
            rw [exec_one_func_eq anc inh cmd a0 f hvalid hf] at h
            injection h with h1 h2 h3
            subst h1; subst h2; subst h3
            refine ⟨fun k hk => absurd hk (by simp), ?_, ?_⟩
            · intro hno
              exact (hno cmd.name (inh.getD cmd.streams) (by simp)).elim
            · intro n s hm
              simp only [List.mem_singleton, Event.ran.injEq] at hm
              exact hm.2
          | none =>
            rw [exec_one_help_eq anc inh cmd a0 hvalid hf] at h
            obtain ⟨c2, e2, hh, tt, heq, hcode⟩ :=
              helpForCommandR_cases anc cmd (inh.getD cmd.streams) []
            rw [heq] at h
            injection h with h1 h2 h3
            subst h1; subst h2; subst h3
            refine ⟨fun k hk => absurd hk (by simp), fun _ => hcode,
              fun n s hm => absurd hm (by simp)⟩
        | cons a1 rest2 =>
          by_cases hhelp : a1 = "help"
          · subst hhelp
            rw [exec_help_tok_eq anc inh cmd a0 rest2 pos hvalid hp] at h
            obtain ⟨c2, e2, hh, tt, heq, hcode⟩ :=
              helpForCommandR_cases anc cmd (inh.getD cmd.streams) pos
            rw [heq] at h
            injection h with h1 h2 h3
            subst h1; subst h2; subst h3
            refine ⟨fun k hk => absurd hk (by simp), fun _ => hcode,
              fun n s hm => absurd hm (by simp)⟩
          · cases hc : lookupChild cmd a1 with
            | some sub =>
              rw [exec_dispatch_eq anc inh cmd a0 a1 rest2 pos sub hvalid hp
                hhelp hc] at h
              cases hsub : exec (anc ++ [cmd.name]) (some (inh.getD cmd.streams))
                  sub (a1 :: rest2) with
              | panicked m =>
                rw [hsub, withPre_panicked] at h
                exact absurd h (by simp)
              | ret c2 e2 evs2 =>
                rw [hsub, withPre_ret] at h
                injection h with h1 h2 h3
                subst h1; subst h2; subst h3
                have IH := ih (anc ++ [cmd.name]) (some (inh.getD cmd.streams))
                  sub c2 e2 evs2 hsub
                refine ⟨?_, ?_, ?_⟩
                · intro k hk
                  rcases List.mem_cons.mp hk with h1 | h1
                  · injection h1 with h1
                    subst h1
                    exact hhelp
                  · exact IH.1 k h1
                · intro hno
                  exact IH.2.1 (fun n s hm =>
                    hno n s (List.mem_cons_of_mem _ hm))
                · intro n s hm
                  rcases List.mem_cons.mp hm with h1 | h1
                  · exact absurd h1 (by simp)
                  · simpa using IH.2.2 n s h1
            | none =>
              cases hf : cmd.func with
              | some f =>
                rw [exec_fallback_func_eq anc inh cmd a0 a1 rest2 pos f hvalid hp
                  hhelp hc hf] at h
                injection h with h1 h2 h3
                subst h1; subst h2; subst h3
                refine ⟨fun k hk => absurd hk (by simp), ?_, ?_⟩
                · intro hno
                  exact (hno cmd.name (inh.getD cmd.streams) (by simp)).elim
                · intro n s hm
                  simp only [List.mem_singleton, Event.ran.injEq] at hm
                  exact hm.2
              | none =>
                rw [exec_fallback_help_eq anc inh cmd a0 a1 rest2 pos hvalid hp
                  hhelp hc hf] at h
                obtain ⟨c2, e2, hh, tt, heq, hcode⟩ :=
                  helpForCommandR_cases anc cmd (inh.getD cmd.streams) pos
                rw [heq] at h
                injection h with h1 h2 h3
                subst h1; subst h2; subst h3
                refine ⟨fun k hk => absurd hk (by simp), fun _ => hcode,
                  fun n s hm => absurd hm (by simp)⟩

/-! ## Registration helpers -/

theorem find?_append_of_none {α : Type} (p : α → Bool) (l1 l2 : List α)
    (h : l1.find? p = none) : (l1 ++ l2).find? p = l2.find? p := by
  induction l1 with
  | nil => rfl
  | cons a t ih =>
    by_cases hpa : p a
    · rw [List.find?_cons_of_pos t hpa] at h
      exact absurd h (by simp)
    · rw [List.find?_cons_of_neg t hpa] at h
      rw [List.cons_append, List.find?_cons_of_neg _ hpa]
      exact ih h

theorem registerChild_some_spec (parent child p2 : Command)
    (h : registerChild parent child = some p2) :
    p2.stdin = parent.stdin ∧ p2.stdout = parent.stdout ∧
      p2.stderr = parent.stderr ∧
      p2.children = parent.children ++ [(child.name, child)] ∧
      (lookupChild parent child.name).isSome = false := by
  unfold registerChild at h
  split_ifs at h with h1 h2 h3 h4
  all_goals first
    | exact Option.noConfusion h
    | (injection h with h5
       subst h5
       cases parent
       exact ⟨rfl, rfl, rfl, rfl, by simpa using h3⟩)

theorem lookupChild_after_register (parent child p2 : Command)
    (h : registerChild parent child = some p2) :
    lookupChild p2 child.name = some child := by
  obtain ⟨-, -, -, hch, hnone⟩ := registerChild_some_spec parent child p2 h
  have hfind : parent.children.find? (fun q => q.1 = child.name) = none := by
    cases hfind : parent.children.find? (fun q => q.1 = child.name) with
    | none => rfl
    | some x =>
      rw [lookupChild, hfind] at hnone
      simp at hnone
  unfold lookupChild
  rw [hch, find?_append_of_none _ _ _ hfind, List.find?_cons_of_pos _ (by simp)]
  rfl

/-! ## Stream-field irrelevance under inherited streams -/

theorem setStreams_name (c : Command) (i o e : Nat) :
    (c.setStreams i o e).name = c.name := by cases c; rfl

theorem setStreams_children (c : Command) (i o e : Nat) :
    (c.setStreams i o e).children = c.children := by cases c; rfl

theorem setStreams_func (c : Command) (i o e : Nat) :
    (c.setStreams i o e).func = c.func := by cases c; rfl

theorem setStreams_flagDefs (c : Command) (i o e : Nat) :
    (c.setStreams i o e).flagDefs = c.flagDefs := by cases c; rfl

theorem lookupChild_setStreams (c : Command) (i o e : Nat) (k : String) :
    lookupChild (c.setStreams i o e) k = lookupChild c k := by cases c; rfl

theorem showHelpText_setStreams (anc : List String) (c : Command) (i o e : Nat) :
    showHelpText anc (c.setStreams i o e) = showHelpText anc c := by cases c; rfl

theorem helpForCommandR_setStreams (anc : List String) (c : Command) (i o e : Nat)
    (eff : Streams) (fargs : List String) :
    helpForCommandR anc (c.setStreams i o e) eff fargs =
      helpForCommandR anc c eff fargs := by cases c; rfl

theorem exec_setStreams (args : List String) (anc : List String) (S : Streams)
    (cmd : Command) (i o e : Nat) :
    exec anc (some S) (cmd.setStreams i o e) args = exec anc (some S) cmd args := by
  have hgd : ∀ x : Streams, (some S).getD x = S := fun _ => rfl
  cases args with
  | nil => rw [exec_nil_eq, exec_nil_eq, setStreams_name]
  | cons a0 rest =>
    by_cases hvalid : cmd.children.isEmpty ∧ cmd.func.isNone
    · have hvalid2 : (cmd.setStreams i o e).children.isEmpty ∧
          (cmd.setStreams i o e).func.isNone := by
        rw [setStreams_children, setStreams_func]; exact hvalid
      rw [exec_invalid_eq _ _ _ _ _ hvalid2, exec_invalid_eq _ _ _ _ _ hvalid,
        setStreams_name]
    · have hvalid2 : ¬((cmd.setStreams i o e).children.isEmpty ∧
          (cmd.setStreams i o e).func.isNone) := by
        rw [setStreams_children, setStreams_func]; exact hvalid
      cases hp : parseArgsGo cmd.flagDefs rest with
      | error e2 =>
        have hp2 : parseArgsGo (cmd.setStreams i o e).flagDefs rest = .error e2 := by
          rw [setStreams_flagDefs]; exact hp
        rw [exec_parse_error_eq _ _ _ _ _ _ hvalid2 hp2,
          exec_parse_error_eq _ _ _ _ _ _ hvalid hp, showHelpText_setStreams,
          hgd, hgd]
      | ok pos =>
        cases rest with
        | nil =>
          cases hf : cmd.func with
          | some f =>
            have hf2 : (cmd.setStreams i o e).func = some f := by
              rw [setStreams_func]; exact hf
            rw [exec_one_func_eq _ _ _ _ f hvalid2 hf2,
              exec_one_func_eq _ _ _ _ f hvalid hf, setStreams_name, hgd, hgd]
          | none =>
            have hf2 : (cmd.setStreams i o e).func = none := by
              rw [setStreams_func]; exact hf
            rw [exec_one_help_eq _ _ _ _ hvalid2 hf2,
              exec_one_help_eq _ _ _ _ hvalid hf, helpForCommandR_setStreams,
              hgd, hgd]
        | cons a1 rest2 =>
          have hp2 : parseArgsGo (cmd.setStreams i o e).flagDefs (a1 :: rest2) =
              .ok pos := by
            rw [setStreams_flagDefs]; exact hp
          by_cases hhelp : a1 = "help"
          · subst hhelp
            rw [exec_help_tok_eq _ _ _ _ _ _ hvalid2 hp2,
              exec_help_tok_eq _ _ _ _ _ _ hvalid hp, helpForCommandR_setStreams,
              hgd, hgd]
          · cases hc : lookupChild cmd a1 with
            | some sub =>
              have hc2 : lookupChild (cmd.setStreams i o e) a1 = some sub := by
                rw [lookupChild_setStreams]; exact hc
              rw [exec_dispatch_eq _ _ _ _ _ _ _ sub hvalid2 hp2 hhelp hc2,
                exec_dispatch_eq _ _ _ _ _ _ _ sub hvalid hp hhelp hc,
                setStreams_name, hgd, hgd]
            | none =>
              have hc2 : lookupChild (cmd.setStreams i o e) a1 = none := by
                rw [lookupChild_setStreams]; exact hc
              cases hf : cmd.func with
              | some f =>
                have hf2 : (cmd.setStreams i o e).func = some f := by
                  rw [setStreams_func]; exact hf
                rw [exec_fallback_func_eq _ _ _ _ _ _ _ f hvalid2 hp2 hhelp hc2 hf2,
                  exec_fallback_func_eq _ _ _ _ _ _ _ f hvalid hp hhelp hc hf,
                  setStreams_name, hgd, hgd]
              | none =>
                have hf2 : (cmd.setStreams i o e).func = none := by
                  rw [setStreams_func]; exact hf
                rw [exec_fallback_help_eq _ _ _ _ _ _ _ hvalid2 hp2 hhelp hc2 hf2,
                  exec_fallback_help_eq _ _ _ _ _ _ _ hvalid hp hhelp hc hf,
                  helpForCommandR_setStreams, hgd, hgd]

/-! ## C5 -/

/-- C5: `RegisterChild(parent, child)` aborts (panics) exactly when the
child's name is empty, its `Short` is empty, the name is already a key among
the parent's children, or the name fails the `commandNameRegex` format rule;
since nothing else is checked — the handler check is commented out in the
source — a child passing all four checks is always accepted, even with no
handler and no children; and a second registration of the same name under
the (updated) parent always aborts. -/
theorem registerChild_aborts_iff (parent child : Command) :
    ((registerChild parent child).isNone ↔
      (child.name = "" ∨ child.short = "" ∨
        (lookupChild parent child.name).isSome = true ∨
        nameRegexAccepts child.name = false)) ∧
    (∀ child2 p2, child2.name = child.name → registerChild parent child = some p2 →
      (registerChild p2 child2).isNone) := by
  constructor
  · unfold registerChild
    split_ifs with h1 h2 h3 h4
    · simp [h1]
    · simp [h2]
    · simp [h3]
    · simp [h1, h2, h3, h4]
    · rw [Bool.not_eq_true] at h4
      simp [h1, h2, h3, h4]
  · intro child2 p2 hname hreg
    have hlk := lookupChild_after_register parent child p2 hreg
    unfold registerChild
    split_ifs with h1 h2 h3 h4
    · simp
    · simp
    · simp
    · exact absurd (show (lookupChild p2 child2.name).isSome = true by
        rw [hname, hlk]; rfl) h3
    · simp

/-! ## C7 -/

/-- C7: an execution whose trace runs no handler returns exit code success
(0) or serious (2), never failure (1); with a handler, `Execute` returns the
handler's pair verbatim, so 1 can only arise as a handler's own return. -/
theorem no_handler_exit_codes (anc : List String) (inh : Option Streams)
    (cmd : Command) (args : List String) (code : Int) (err : Option String)
    (evs : List Event) (hret : exec anc inh cmd args = .ret code err evs)
    (hnoran : ∀ n s, Event.ran n s ∉ evs) :
    code = ExitCodeSuccess ∨ code = ExitCodeSerious :=
  (exec_trace_spec args anc inh cmd code err evs hret).2.1 hnoran

theorem no_handler_exit_codes_witness :
    ExitCodeSuccess = ExitCodeSuccess ∨ ExitCodeSuccess = ExitCodeSerious :=
  no_handler_exit_codes [] none c1root ["prog"] ExitCodeSuccess none
    [.wrote 2 (showHelpText [] c1root)] (by decide)
    (by intro n s hm; simp at hm)

/-! ## C8 -/

/-- C8: registration leaves every stream field untouched (the updated parent
keeps its own streams and the child is stored as given), and on every
`Execute` of a node with a parent the node's streams are overwritten with
the parent's current streams before anything else: every handler run in the
walk receives exactly the inherited streams, and the executed node's own
stream fields are irrelevant to the whole outcome — so overriding the root's
streams before execution reaches every node visited. -/
theorem stream_inheritance :
    (∀ parent child p2, registerChild parent child = some p2 →
      p2.stdin = parent.stdin ∧ p2.stdout = parent.stdout ∧
        p2.stderr = parent.stderr ∧ lookupChild p2 child.name = some child) ∧
    (∀ args anc S cmd code err evs,
      exec anc (some S) cmd args = .ret code err evs →
      ∀ n s, Event.ran n s ∈ evs → s = S) ∧
    (∀ args anc S cmd i o e,
      exec anc (some S) (cmd.setStreams i o e) args = exec anc (some S) cmd args) := by
  refine ⟨?_, ?_, ?_⟩
  · intro parent child p2 h
    obtain ⟨h1, h2, h3, _, _⟩ := registerChild_some_spec parent child p2 h
    exact ⟨h1, h2, h3, lookupChild_after_register parent child p2 h⟩
  · intro args anc S cmd code err evs h n s hm
    simpa using (exec_trace_spec args anc (some S) cmd code err evs h).2.2 n s hm
  · intro args anc S cmd i o e
    exact exec_setStreams args anc S cmd i o e

/-! ## C9 -/

/-- C9: whenever the token after the node's own name is the literal `help`,
`Execute` takes the help-rendering path (the children map is never
consulted), and no execution ever dispatches into a child under the key
`help` — although `help` is a name the `commandNameRegex` format rule
accepts — so such a child's handler is unreachable through dispatch. -/
theorem help_token_shadows_child :
    (∀ anc inh cmd a0 rest, ¬(cmd.children.isEmpty ∧ cmd.func.isNone) →
      exec anc inh cmd (a0 :: "help" :: rest) =
        helpForCommandR anc cmd (inh.getD cmd.streams) ("help" :: rest)) ∧
    (∀ args anc inh cmd code err evs, exec anc inh cmd args = .ret code err evs →
      ∀ k, Event.dispatched k ∈ evs → k ≠ "help") ∧
    nameRegexAccepts "help" = true := by
  refine ⟨?_, ?_, by decide⟩
  · intro anc inh cmd a0 rest hvalid
    exact exec_help_tok_eq anc inh cmd a0 rest ("help" :: rest) hvalid
      (parseArgsGo_stop _ _ _ (Or.inr (by decide)))
  · intro args anc inh cmd code err evs h k hk
    exact (exec_trace_spec args anc inh cmd code err evs h).1 k hk

/-! ## C2 -/

theorem flagHelpLine_of_zero (fl : FlagDef) (hz : fl.defValue = fl.zeroString) :
    flagHelpLine fl = flagBaseLine fl ++ "\n" := by
  simp [flagHelpLine, isZeroValue, hz]

theorem flagHelpLine_of_ne_local (fl : FlagDef)
    (hz : ¬ fl.defValue = fl.zeroString) (hl : fl.isLocalStringValue = true) :
    flagHelpLine fl =
      flagBaseLine fl ++ " (default " ++ goQuote fl.defValue ++ ")" ++ "\n" := by
  simp [flagHelpLine, isZeroValue, hz, hl]

theorem flagHelpLine_of_ne_other (fl : FlagDef)
    (hz : ¬ fl.defValue = fl.zeroString) (hl : fl.isLocalStringValue = false) :
    flagHelpLine fl =
      flagBaseLine fl ++ " (default " ++ fl.defValue ++ ")" ++ "\n" := by
  simp [flagHelpLine, isZeroValue, hz, hl]

theorem marker_infix (base X t1 t2 : String) :
    defaultMarker <:+: (base ++ " (default " ++ X ++ t1 ++ t2).data :=
  ⟨base.data, X.data ++ t1.data ++ t2.data, by
    simp [String.data_append, defaultMarker, List.append_assoc]⟩

theorem no_marker_of_no_paren (s : String) (h : '(' ∉ s.data) :
    ¬ (defaultMarker <:+: (s ++ "\n").data) := by
  intro hinf
  have hmem : '(' ∈ (s ++ "\n").data := hinf.subset (by decide)
  rw [String.data_append] at hmem
  rcases List.mem_append.mp hmem with h1 | h1
  · exact h h1
  · exact absurd h1 (by decide)

/-- C2 counterexample: a flag whose current value (`"5"`) differs from its
type's zero value (`"0"`) while its declared default (`DefValue`, `"0"`)
equals the zero value.  The rendered help line carries no ` (default `
suffix, refuting "suffix exactly when the flag's current value differs from
its type's zero value": `flagHelp` compares `DefValue`, not the current
value. -/
theorem flagDefault_current_value_counterexample :
    c2flag.curValue ≠ c2flag.zeroString ∧
      ¬ (defaultMarker <:+: (flagHelpLine c2flag).data) :=
  ⟨by decide, by decide⟩

/-- C2 (amended): a defined flag's help line carries a ` (default <value>)`
suffix exactly when the flag's declared default value (`DefValue`) differs
from its value type's zero value (stated for lines whose base part renders
no `(`, so the marker cannot come from the usage text); whenever the suffix
is shown for a flag backed by the package-local `stringValue` type, the
default is rendered in quotes, and other values are rendered verbatim,
unquoted. -/
theorem flagDefault_suffix_amended (fl : FlagDef)
    (hbase : '(' ∉ (flagBaseLine fl).data) :
    ((defaultMarker <:+: (flagHelpLine fl).data) ↔
      ¬ fl.defValue = fl.zeroString) ∧
    (¬ fl.defValue = fl.zeroString → fl.isLocalStringValue = true →
      ∃ q, flagHelpLine fl =
          flagBaseLine fl ++ " (default " ++ q ++ ")" ++ "\n" ∧
        q.data.head? = some '"' ∧ q.data.getLast? = some '"') ∧
    (¬ fl.defValue = fl.zeroString → fl.isLocalStringValue = false →
      flagHelpLine fl =
        flagBaseLine fl ++ " (default " ++ fl.defValue ++ ")" ++ "\n") := by
  refine ⟨⟨?_, ?_⟩, ?_, ?_⟩
  · intro hinf
    by_contra hz
    rw [flagHelpLine_of_zero fl hz] at hinf
    exact no_marker_of_no_paren _ hbase hinf
  · intro hz
    cases hl : fl.isLocalStringValue with
    | true =>
      rw [flagHelpLine_of_ne_local fl hz hl]
      exact marker_infix _ _ _ _
    | false =>
      rw [flagHelpLine_of_ne_other fl hz hl]
      exact marker_infix _ _ _ _
  · intro hz hl
    refine ⟨goQuote fl.defValue, flagHelpLine_of_ne_local fl hz hl, ?_, ?_⟩
    · rw [goQuote, String.data_append, String.data_append]
      rfl
    · rw [goQuote, String.data_append, String.data_append]
      exact List.getLast?_concat _
  · intro hz hl
    exact flagHelpLine_of_ne_other fl hz hl

theorem flagDefault_suffix_amended_witness :
    ((defaultMarker <:+: (flagHelpLine c2wflag).data) ↔
      ¬ c2wflag.defValue = c2wflag.zeroString) ∧
    (¬ c2wflag.defValue = c2wflag.zeroString →
      c2wflag.isLocalStringValue = true →
      ∃ q, flagHelpLine c2wflag =
          flagBaseLine c2wflag ++ " (default " ++ q ++ ")" ++ "\n" ∧
        q.data.head? = some '"' ∧ q.data.getLast? = some '"') ∧
    (¬ c2wflag.defValue = c2wflag.zeroString →
      c2wflag.isLocalStringValue = false →
      flagHelpLine c2wflag =
        flagBaseLine c2wflag ++ " (default " ++ c2wflag.defValue ++ ")" ++ "\n") :=
  flagDefault_suffix_amended c2wflag (by decide)

/-! ## C10 -/

theorem lexLe_total (a : List Char) : ∀ b, lexLe a b = true ∨ lexLe b a = true := by
  induction a with
  | nil => intro b; exact Or.inl rfl
  | cons x xs ih =>
    intro b
    cases b with
    | nil => exact Or.inr rfl
    | cons y ys =>
      by_cases hxy : x = y
      · subst hxy
        simp only [lexLe, if_pos rfl]
        exact ih ys
      · have hyx : ¬ y = x := fun h => hxy h.symm
        simp only [lexLe, if_neg hxy, if_neg hyx]
        rcases lt_or_gt_of_ne hxy with h | h
        · exact Or.inl (by simpa using h)
        · exact Or.inr (by simpa using h)

theorem lexLe_trans (a : List Char) : ∀ b c, lexLe a b = true → lexLe b c = true →
    lexLe a c = true := by
  induction a with
  | nil => intro b c _ _; rfl
  | cons x xs ih =>
    intro b c hab hbc
    cases b with
    | nil => simp [lexLe] at hab
    | cons y ys =>
      cases c with
      | nil => simp [lexLe] at hbc
      | cons z zs =>
        by_cases hxy : x = y
        · subst hxy
          simp only [lexLe, if_pos rfl] at hab
          by_cases hyz : x = z
          · subst hyz
            simp only [lexLe, if_pos rfl] at hbc ⊢
            exact ih ys zs hab hbc
          · simp only [lexLe, if_neg hyz] at hbc ⊢
            exact hbc
        · by_cases hyz : y = z
          · subst hyz
            simp only [lexLe, if_neg hxy] at hab ⊢
            exact hab
          · simp only [lexLe, if_neg hxy, if_neg hyz] at hab hbc
            have hxz : ¬ x = z := by
              intro he
              subst he
              rw [decide_eq_true_eq] at hab hbc
              exact absurd (lt_trans hab hbc) (lt_irrefl x)
            simp only [lexLe, if_neg hxz]
            rw [decide_eq_true_eq] at hab hbc ⊢
            exact lt_trans hab hbc

theorem lexLe_antisymm (a : List Char) : ∀ b, lexLe a b = true → lexLe b a = true →
    a = b := by
  induction a with
  | nil =>
    intro b _ hba
    cases b with
    | nil => rfl
    | cons y ys => simp [lexLe] at hba
  | cons x xs ih =>
    intro b hab hba
    cases b with
    | nil => simp [lexLe] at hab
    | cons y ys =>
      by_cases hxy : x = y
      · subst hxy
        simp only [lexLe, if_pos rfl] at hab hba
        rw [ih ys hab hba]
      · have hyx : ¬ y = x := fun h => hxy h.symm
        simp only [lexLe, if_neg hxy, if_neg hyx] at hab hba
        rw [decide_eq_true_eq] at hab hba
        exact absurd (lt_trans hab hba) (lt_irrefl x)

theorem str_ext (a b : String) (h : a.data = b.data) : a = b := by
  cases a; cases b; exact congrArg String.mk h

instance : IsTotal String strLeP :=
  ⟨fun a b => lexLe_total a.data b.data⟩

instance : IsTrans String strLeP :=
  ⟨fun a b c hab hbc => lexLe_trans a.data b.data c.data hab hbc⟩

instance : IsAntisymm String strLeP :=
  ⟨fun a b hab hba => str_ext a b (lexLe_antisymm a.data b.data hab hba)⟩

theorem sortStrings_perm_eq (l1 l2 : List String) (h : l1.Perm l2) :
    sortStrings l1 = sortStrings l2 :=
  List.eq_of_perm_of_sorted
    ((List.perm_insertionSort strLeP l1).trans
      (h.trans (List.perm_insertionSort strLeP l2).symm))
    (List.sorted_insertionSort strLeP l1) (List.sorted_insertionSort strLeP l2)

theorem find?_perm_of_nodup_keys {β : Type} (l1 l2 : List (String × β)) (k : String)
    (hperm : l1.Perm l2) (hnd : (l2.map Prod.fst).Nodup) :
    l1.find? (fun q => q.1 = k) = l2.find? (fun q => q.1 = k) := by
  cases hf1 : l1.find? (fun q => q.1 = k) with
  | none =>
    cases hf2 : l2.find? (fun q => q.1 = k) with
    | none => rfl
    | some x =>
      have hx : x ∈ l1 := hperm.symm.subset (List.mem_of_find?_eq_some hf2)
      exact absurd (List.find?_some hf2) (List.find?_eq_none.mp hf1 x hx)
  | some x =>
    have hx2 : x ∈ l2 := hperm.subset (List.mem_of_find?_eq_some hf1)
    have hpx := List.find?_some hf1
    cases hf2 : l2.find? (fun q => q.1 = k) with
    | none => exact absurd hpx (List.find?_eq_none.mp hf2 x hx2)
    | some y =>
      have hy2 : y ∈ l2 := List.mem_of_find?_eq_some hf2
      have hpy := List.find?_some hf2
      have hxy : x = y := List.inj_on_of_nodup_map hnd hx2 hy2 (by
        have h1 : x.1 = k := of_decide_eq_true hpx
        have h2 : y.1 = k := of_decide_eq_true hpy
        rw [h1, h2])
      rw [hxy]

/-- C10: help rendering is a deterministic function of the node's state.
The only under-determined part of that state is the iteration order of the
Go children map, and `showHelp` sorts the keys before rendering, so the same
node rendered with its children association list in any order (and no other
change) produces byte-identical output — in particular, rendering twice with
unchanged state is byte-identical. -/
theorem showHelp_deterministic (anc : List String) (cmd : Command)
    (l2 : List (String × Command)) (hperm : l2.Perm cmd.children)
    (hnd : (cmd.children.map Prod.fst).Nodup) :
    showHelpText anc (cmd.withChildren l2) = showHelpText anc cmd := by
  cases cmd with
  | mk n u s l f fn ch ln i o e =>
    simp only [Command.children] at hperm hnd
    have hkeys : (l2.map Prod.fst).Perm (ch.map Prod.fst) := hperm.map Prod.fst
    have hlen : (l2.map Prod.fst).length = (ch.map Prod.fst).length :=
      hkeys.length_eq
    have hlook : ∀ k, lookupChild (Command.mk n u s l f fn l2 ln i o e) k =
        lookupChild (Command.mk n u s l f fn ch ln i o e) k := by
      intro k
      show (l2.find? (fun q => q.1 = k)).map Prod.snd =
        (ch.find? (fun q => q.1 = k)).map Prod.snd
      rw [find?_perm_of_nodup_keys l2 ch k hperm hnd]
    have hrows : commandRows (Command.mk n u s l f fn l2 ln i o e)
        (sortStrings (l2.map Prod.fst)) =
        commandRows (Command.mk n u s l f fn ch ln i o e)
        (sortStrings (ch.map Prod.fst)) := by
      rw [sortStrings_perm_eq _ _ hkeys]
      unfold commandRows
      congr 1
      apply List.map_congr_left
      intro k _
      rw [hlook k]
      rfl
    show showHelpText anc (Command.mk n u s l f fn l2 ln i o e) =
      showHelpText anc (Command.mk n u s l f fn ch ln i o e)
    simp only [showHelpText, Command.children, Command.short, Command.usage,
      Command.long, Command.flags, Command.name, Command.longestName]
    rw [hlen, hrows]

theorem showHelp_deterministic_witness :
    showHelpText [] (c10cmd.withChildren [("b", c10b), ("a", c10a)]) =
      showHelpText [] c10cmd :=
  showHelp_deterministic [] c10cmd [("b", c10b), ("a", c10a)]
    (List.Perm.swap ("a", c10a) ("b", c10b) []) (by decide)

/-! ## C6: the regex language equals the claim's language -/

theorem oneOfChars_rmatch (cs : List Char) (x : List Char) :
    (oneOfChars cs).rmatch x = true ↔ ∃ c, c ∈ cs ∧ x = [c] := by
  induction cs with
  | nil => simp [oneOfChars, RegularExpression.zero_rmatch]
  | cons c cs ih =>
    rw [oneOfChars, RegularExpression.add_rmatch_iff,
      RegularExpression.char_rmatch_iff, ih]
    constructor
    · rintro (rfl | ⟨d, hd, rfl⟩)
      · exact ⟨c, by simp, rfl⟩
      · exact ⟨d, by simp [hd], rfl⟩
    · rintro ⟨d, hd, rfl⟩
      rcases List.mem_cons.mp hd with rfl | hd
      · exact Or.inl rfl
      · exact Or.inr ⟨d, hd, rfl⟩

theorem alnumRE_rmatch (x : List Char) :
    alnumRE.rmatch x = true ↔ ∃ c, isNameChar c = true ∧ x = [c] := by
  rw [alnumRE, oneOfChars_rmatch]
  constructor
  · rintro ⟨c, hc, rfl⟩
    exact ⟨c, by simp [isNameChar, hc], rfl⟩
  · rintro ⟨c, hc, rfl⟩
    refine ⟨c, ?_, rfl⟩
    simpa [isNameChar] using hc

theorem flatten_singletons {α : Type} (x : List α) :
    (x.map (fun c => [c])).flatten = x := by
  induction x with
  | nil => rfl
  | cons a t ih => simp [ih]

theorem alnum_star_rmatch (x : List Char) :
    alnumRE.star.rmatch x = true ↔ ∀ c ∈ x, isNameChar c = true := by
  rw [RegularExpression.star_rmatch_iff]
  constructor
  · rintro ⟨S, rfl, hS⟩ c hc
    rw [List.mem_flatten] at hc
    obtain ⟨t, htS, hct⟩ := hc
    obtain ⟨-, ht⟩ := hS t htS
    obtain ⟨d, hd, rfl⟩ := (alnumRE_rmatch t).mp ht
    rw [List.mem_singleton] at hct
    subst hct
    exact hd
  · intro hx
    refine ⟨x.map (fun c => [c]), (flatten_singletons x).symm, ?_⟩
    intro t ht
    obtain ⟨c, hcx, rfl⟩ := List.mem_map.mp ht
    exact ⟨by simp, (alnumRE_rmatch [c]).mpr ⟨c, hx c hcx, rfl⟩⟩

theorem alnum_plus_rmatch (x : List Char) :
    (plusRE alnumRE).rmatch x = true ↔
      x ≠ [] ∧ ∀ c ∈ x, isNameChar c = true := by
  rw [plusRE, RegularExpression.mul_rmatch_iff]
  constructor
  · rintro ⟨t, u, rfl, ht, hu⟩
    obtain ⟨c, hc, rfl⟩ := (alnumRE_rmatch t).mp ht
    have hu2 := (alnum_star_rmatch u).mp hu
    refine ⟨by simp, ?_⟩
    intro d hd
    rcases List.mem_cons.mp hd with rfl | hd
    · exact hc
    · exact hu2 d hd
  · rintro ⟨hne, hall⟩
    cases x with
    | nil => exact absurd rfl hne
    | cons c t =>
      exact ⟨[c], t, rfl, (alnumRE_rmatch [c]).mpr ⟨c, hall c (by simp), rfl⟩,
        (alnum_star_rmatch t).mpr (fun d hd => hall d (by simp [hd]))⟩

theorem optRE_rmatch (r : RegularExpression Char) (x : List Char) :
    (optRE r).rmatch x = true ↔ x = [] ∨ r.rmatch x = true := by
  rw [optRE, RegularExpression.add_rmatch_iff, RegularExpression.one_rmatch_iff]

theorem groupRE_rmatch (x : List Char) :
    groupRE.rmatch x = true ↔
      ∃ a m b, x = a ++ m ++ b ∧ a ≠ [] ∧ (∀ c ∈ a, isNameChar c = true) ∧
        (m = [] ∨ m = ['-']) ∧ (∀ c ∈ b, isNameChar c = true) := by
  rw [groupRE, RegularExpression.mul_rmatch_iff]
  constructor
  · rintro ⟨t, b, rfl, ht, hb⟩
    rw [RegularExpression.mul_rmatch_iff] at ht
    obtain ⟨a, m, rfl, ha, hm⟩ := ht
    obtain ⟨hane, haall⟩ := (alnum_plus_rmatch a).mp ha
    have hmm : m = [] ∨ m = ['-'] := by
      rcases (optRE_rmatch _ m).mp hm with h | h
      · exact Or.inl h
      · exact Or.inr ((RegularExpression.char_rmatch_iff '-' m).mp h)
    exact ⟨a, m, b, rfl, hane, haall, hmm,
      (alnum_star_rmatch b).mp hb⟩
  · rintro ⟨a, m, b, rfl, hane, haall, hmm, hball⟩
    refine ⟨a ++ m, b, rfl, ?_, (alnum_star_rmatch b).mpr hball⟩
    rw [RegularExpression.mul_rmatch_iff]
    refine ⟨a, m, rfl, (alnum_plus_rmatch a).mpr ⟨hane, haall⟩, ?_⟩
    rw [optRE_rmatch]
    rcases hmm with rfl | rfl
    · exact Or.inl rfl
    · exact Or.inr ((RegularExpression.char_rmatch_iff '-' ['-']).mpr rfl)

theorem GoodName.prepend (z a : List Char) (hz : GoodName z) (hane : a ≠ [])
    (haall : ∀ c ∈ a, isNameChar c = true) : GoodName (a ++ z) := by
  induction hz with
  | single g hne hall =>
    refine GoodName.single (a ++ g) (by simp [hane]) ?_
    intro c hc
    rcases List.mem_append.mp hc with h | h
    · exact haall c h
    · exact hall c h
  | group g rest hne hall hr _ih =>
    rw [← List.append_assoc]
    refine GoodName.group (a ++ g) rest (by simp [hane]) ?_ hr
    intro c hc
    rcases List.mem_append.mp hc with h | h
    · exact haall c h
    · exact hall c h

theorem groupRE_block_good (x z : List Char) (hx : groupRE.rmatch x = true)
    (hz : GoodName z) : GoodName (x ++ z) := by
  obtain ⟨a, m, b, rfl, hane, haall, hmm, hball⟩ := (groupRE_rmatch x).mp hx
  have hbz : GoodName (b ++ z) := by
    by_cases hb : b = []
    · subst hb
      simpa using hz
    · exact GoodName.prepend z b hz hb hball
  rcases hmm with rfl | rfl
  · have := GoodName.prepend (b ++ z) a hbz hane haall
    simpa [List.append_assoc] using this
  · have := GoodName.group a (b ++ z) hane haall hbz
    simpa [List.append_assoc] using this

theorem groupRE_flatten_good (S : List (List Char)) (z : List Char)
    (hS : ∀ t ∈ S, groupRE.rmatch t = true) (hz : GoodName z) :
    GoodName (S.flatten ++ z) := by
  induction S with
  | nil => simpa using hz
  | cons t S ih =>
    have h1 := ih (fun u hu => hS u (by simp [hu]))
    have := groupRE_block_good t (S.flatten ++ z) (hS t (by simp)) h1
    simpa [List.append_assoc] using this

theorem rmatch_to_goodName (x : List Char)
    (h : commandNameRegex.rmatch x = true) : GoodName x := by
  rw [commandNameRegex, RegularExpression.add_rmatch_iff] at h
  rcases h with h | h
  · obtain ⟨c, hc, rfl⟩ := (alnumRE_rmatch x).mp h
    exact GoodName.single [c] (by simp) (by simpa using hc)
  · rw [RegularExpression.mul_rmatch_iff] at h
    obtain ⟨y, w, rfl, hy, hw⟩ := h
    obtain ⟨c, hc, rfl⟩ := (alnumRE_rmatch w).mp hw
    rw [plusRE, RegularExpression.mul_rmatch_iff] at hy
    obtain ⟨t, u, rfl, ht, hu⟩ := hy
    rw [RegularExpression.star_rmatch_iff] at hu
    obtain ⟨S, rfl, hS⟩ := hu
    have hgc : GoodName [c] := GoodName.single [c] (by simp) (by simpa using hc)
    have h1 := groupRE_flatten_good S [c] (fun v hv => (hS v hv).2) hgc
    have := groupRE_block_good t (S.flatten ++ [c]) ht h1
    simpa [List.append_assoc] using this

theorem groupRE_of_alnum (g : List Char) (hne : g ≠ [])
    (hall : ∀ c ∈ g, isNameChar c = true) : groupRE.rmatch g = true := by
  rw [groupRE_rmatch]
  exact ⟨g, [], [], by simp, hne, hall, Or.inl rfl, by simp⟩

theorem groupRE_of_alnum_hyphen (g : List Char) (hne : g ≠ [])
    (hall : ∀ c ∈ g, isNameChar c = true) :
    groupRE.rmatch (g ++ ['-']) = true := by
  rw [groupRE_rmatch]
  exact ⟨g, ['-'], [], by simp, hne, hall, Or.inr rfl, by simp⟩

theorem groupRE_nonempty (t : List Char) (ht : groupRE.rmatch t = true) :
    t ≠ [] := by
  obtain ⟨a, m, b, rfl, hane, -, -, -⟩ := (groupRE_rmatch t).mp ht
  simp [hane]

theorem plus_groupRE_intro (t u : List Char) (ht : groupRE.rmatch t = true)
    (hu : groupRE.star.rmatch u = true) :
    (plusRE groupRE).rmatch (t ++ u) = true := by
  rw [plusRE, RegularExpression.mul_rmatch_iff]
  exact ⟨t, u, rfl, ht, hu⟩

theorem star_groupRE_nil : groupRE.star.rmatch [] = true := by
  rw [RegularExpression.star_rmatch_iff]
  exact ⟨[], rfl, by simp⟩

theorem star_groupRE_cons (t u : List Char) (htne : t ≠ [])
    (ht : groupRE.rmatch t = true) (hu : groupRE.star.rmatch u = true) :
    groupRE.star.rmatch (t ++ u) = true := by
  rw [RegularExpression.star_rmatch_iff] at hu ⊢
  obtain ⟨S, rfl, hS⟩ := hu
  refine ⟨t :: S, rfl, ?_⟩
  intro v hv
  rcases List.mem_cons.mp hv with rfl | hv
  · exact ⟨htne, ht⟩
  · exact hS v hv

theorem goodName_to_rmatch (x : List Char) (h : GoodName x) :
    commandNameRegex.rmatch x = true := by
  induction h with
  | single g hne hall =>
    rw [commandNameRegex, RegularExpression.add_rmatch_iff]
    cases g with
    | nil => exact absurd rfl hne
    | cons c t =>
      cases t with
      | nil =>
        exact Or.inl ((alnumRE_rmatch [c]).mpr ⟨c, hall c (by simp), rfl⟩)
      | cons d t2 =>
        right
        rw [RegularExpression.mul_rmatch_iff]
        have hne2 : (c :: d :: t2).dropLast ≠ [] := by simp
        refine ⟨(c :: d :: t2).dropLast,
          [(c :: d :: t2).getLast (by simp)],
          (List.dropLast_append_getLast (by simp)).symm, ?_, ?_⟩
        · have := plus_groupRE_intro ((c :: d :: t2).dropLast) []
            (groupRE_of_alnum _ hne2
              (fun e he => hall e (List.dropLast_subset _ he)))
            star_groupRE_nil
          simpa using this
        · exact (alnumRE_rmatch _).mpr ⟨_, hall _ (List.getLast_mem _), rfl⟩
  | group g rest hne hall hr ih =>
    rw [commandNameRegex, RegularExpression.add_rmatch_iff] at ih ⊢
    right
    rcases ih with ih | ih
    · obtain ⟨c, hc, hrest⟩ := (alnumRE_rmatch rest).mp ih
      subst hrest
      rw [RegularExpression.mul_rmatch_iff]
      refine ⟨g ++ ['-'], [c], by simp, ?_,
        (alnumRE_rmatch [c]).mpr ⟨c, hc, rfl⟩⟩
      have := plus_groupRE_intro (g ++ ['-']) []
        (groupRE_of_alnum_hyphen g hne hall) star_groupRE_nil
      simpa using this
    · rw [RegularExpression.mul_rmatch_iff] at ih
      obtain ⟨y, w, hrest, hy, hw⟩ := ih
      rw [plusRE, RegularExpression.mul_rmatch_iff] at hy
      obtain ⟨t, u, hy2, ht, hu⟩ := hy
      rw [RegularExpression.mul_rmatch_iff]
      refine ⟨(g ++ ['-']) ++ (t ++ u), w, ?_, ?_, hw⟩
      · rw [hrest, hy2]
        simp [List.append_assoc]
      · exact plus_groupRE_intro (g ++ ['-']) (t ++ u)
          (groupRE_of_alnum_hyphen g hne hall)
          (star_groupRE_cons t u (groupRE_nonempty t ht) ht hu)

theorem splitHyphen_no_hyphen (g : List Char) (h : ∀ c ∈ g, c ≠ '-') :
    splitHyphen g = [g] := by
  induction g with
  | nil => rfl
  | cons c t ih =>
    have hc : c ≠ '-' := h c (by simp)
    rw [splitHyphen, if_neg hc, ih (fun d hd => h d (by simp [hd]))]
    rfl

theorem splitHyphen_append_hyphen (g rest : List Char) (h : ∀ c ∈ g, c ≠ '-') :
    splitHyphen (g ++ '-' :: rest) = g :: splitHyphen rest := by
  induction g with
  | nil => simp [splitHyphen]
  | cons c t ih =>
    have hc : c ≠ '-' := h c (by simp)
    rw [List.cons_append, splitHyphen, if_neg hc,
      ih (fun d hd => h d (by simp [hd]))]
    rfl

theorem isNameChar_ne_hyphen (c : Char) (h : isNameChar c = true) : c ≠ '-' := by
  intro he
  subst he
  exact absurd h (by decide)

theorem goodName_to_specOk (x : List Char) (h : GoodName x) :
    specOkGroups x = true := by
  induction h with
  | single g hne hall =>
    rw [specOkGroups, splitHyphen_no_hyphen g
      (fun c hc => isNameChar_ne_hyphen c (hall c hc))]
    have h1 : g.isEmpty = false := by
      cases g
      · exact absurd rfl hne
      · rfl
    have h2 : g.all isNameChar = true := List.all_eq_true.mpr hall
    simp [h1, h2]
  | group g rest hne hall hr ih =>
    rw [specOkGroups, splitHyphen_append_hyphen g rest
      (fun c hc => isNameChar_ne_hyphen c (hall c hc))]
    have h1 : g.isEmpty = false := by
      cases g
      · exact absurd rfl hne
      · rfl
    have h2 : g.all isNameChar = true := List.all_eq_true.mpr hall
    rw [specOkGroups] at ih
    simp [h1, h2, ih]

theorem split_first_hyphen (l : List Char) :
    (∀ c ∈ l, c ≠ '-') ∨
      ∃ a t, l = a ++ '-' :: t ∧ (∀ c ∈ a, c ≠ '-') := by
  induction l with
  | nil => exact Or.inl (by simp)
  | cons c l2 ih =>
    by_cases hc : c = '-'
    · subst hc
      exact Or.inr ⟨[], l2, rfl, by simp⟩
    · rcases ih with h | ⟨a, t, heq, ha⟩
      · refine Or.inl ?_
        intro d hd
        rcases List.mem_cons.mp hd with rfl | hd
        · exact hc
        · exact h d hd
      · refine Or.inr ⟨c :: a, t, by rw [heq]; rfl, ?_⟩
        intro d hd
        rcases List.mem_cons.mp hd with rfl | hd
        · exact hc
        · exact ha d hd

theorem specOk_to_goodName_aux (n : Nat) : ∀ l : List Char, l.length ≤ n →
    specOkGroups l = true → GoodName l := by
  induction n with
  | zero =>
    intro l hl hok
    have hnil : l = [] := List.length_eq_zero.mp (Nat.le_zero.mp hl)
    subst hnil
    exact absurd hok (by decide)
  | succ n ih =>
    intro l hl hok
    rcases split_first_hyphen l with h | ⟨a, t, rfl, ha⟩
    · rw [specOkGroups, splitHyphen_no_hyphen l h] at hok
      simp only [List.all_cons, List.all_nil, Bool.and_true,
        Bool.and_eq_true, Bool.not_eq_true'] at hok
      refine GoodName.single l ?_ (List.all_eq_true.mp hok.2)
      intro he
      subst he
      simp at hok
    · rw [specOkGroups, splitHyphen_append_hyphen a t ha] at hok
      simp only [List.all_cons, Bool.and_eq_true, Bool.not_eq_true'] at hok
      obtain ⟨⟨hae, haall⟩, hrest⟩ := hok
      have htlen : t.length ≤ n := by
        rw [List.length_append, List.length_cons] at hl
        omega
      refine GoodName.group a t ?_ (List.all_eq_true.mp haall)
        (ih t htlen (by rw [specOkGroups]; exact hrest))
      intro he
      subst he
      simp at hae

theorem specOk_to_goodName (l : List Char) (h : specOkGroups l = true) :
    GoodName l :=
  specOk_to_goodName_aux l.length l le_rfl h

theorem rmatch_eq_specNameOk (s : String) : nameRegexAccepts s = specNameOk s := by
  rw [nameRegexAccepts, specNameOk]
  cases hspec : specOkGroups s.data with
  | true => exact goodName_to_rmatch s.data (specOk_to_goodName s.data hspec)
  | false =>
    cases hrm : commandNameRegex.rmatch s.data with
    | false => rfl
    | true =>
      have := goodName_to_specOk s.data (rmatch_to_goodName s.data hrm)
      rw [hspec] at this
      exact absurd this (by decide)

/-- C6: a string is accepted by the registration-time name-format check
(`commandNameRegex.MatchString`) exactly when it is a single lowercase
alphanumeric character, or a hyphen-delimited run of nonempty
lowercase-alphanumeric groups that neither starts nor ends with a hyphen nor
contains adjacent hyphens (the language `specNameOk` states in the claim's
words); and registration aborts for every string outside that language. -/
theorem nameRegex_matches_iff_spec :
    (∀ s : String, nameRegexAccepts s = specNameOk s) ∧
    (∀ parent child, specNameOk child.name = false →
      (registerChild parent child).isNone) := by
  refine ⟨rmatch_eq_specNameOk, ?_⟩
  intro parent child hspec
  have hacc : nameRegexAccepts child.name = false := by
    rw [rmatch_eq_specNameOk]
    exact hspec
  unfold registerChild
  split_ifs with h1 h2 h3 h4
  all_goals first
    | rfl
    | (rw [hacc] at h4; exact absurd h4 (by decide))

end Commands
